import Mathlib

/-!
# go_1brc: per-city aggregation of temperature readings

A shallow embedding of `src/main.go`.

* `measurementDetails`, `detailsMap` (lines 20-28): the per-city record and the
  shared map, here an association list with at most one pair per key.
* `processData` (lines 33-66), `worker` (lines 72-84), `main` (lines 125-158,
  once the file is open).

Concurrency is modelled by its linearisation: every `processData` call runs its
map access under the one mutex, so a run of the worker pool is one sequence of
`processData` calls, in the order in which the workers took the lock.  The list
handed to `worker` below is that sequence.  It holds the texts `scanner.Scan()`
delivered (lines 142-144); what `scanner.Err()` then reports (line 146) is the
argument `scanErr` of `main`.

`float64` values are the type `F64`: NaN, the two infinities, and finite values
carried as rationals.  Signed zeros are identified and finite results are kept
exact (no rounding to 53 bits).  `strconv.ParseFloat` belongs to the Go library;
the functions take it as the argument `ParseFloat`, and `decimalParseFloat` is
the instance used at concrete inputs.
-/

namespace Go1brc

/-! ## float64 -/

/-- A `float64` value. -/
inductive F64 where
  | nan : F64
  | inf (neg : Bool) : F64
  | fin (q : ℚ) : F64
  deriving DecidableEq

namespace F64

/-- Go `a < b` on `float64`: false as soon as one side is NaN. -/
def lt : F64 → F64 → Bool
  | nan, _ => false
  | _, nan => false
  | inf true, inf true => false
  | inf true, _ => true
  | _, inf true => false
  | inf false, _ => false
  | fin _, inf false => true
  | fin a, fin b => decide (a < b)

/-- Go `a <= b` on `float64`: false as soon as one side is NaN. -/
def le : F64 → F64 → Bool
  | nan, _ => false
  | _, nan => false
  | inf true, _ => true
  | _, inf true => false
  | _, inf false => true
  | inf false, fin _ => false
  | fin a, fin b => decide (a ≤ b)

/-- Go `a + b` on `float64`. -/
def add : F64 → F64 → F64
  | nan, _ => nan
  | _, nan => nan
  | inf s, inf t => if s = t then inf s else nan
  | inf s, fin _ => inf s
  | fin _, inf t => inf t
  | fin a, fin b => fin (a + b)

/-- Go `a / b` on `float64`. -/
def div : F64 → F64 → F64
  | nan, _ => nan
  | _, nan => nan
  | inf _, inf _ => nan
  | inf s, fin b => inf (s != decide (b < 0))
  | fin _, inf _ => fin 0
  | fin a, fin b =>
    if b = 0 then (if a = 0 then nan else inf (decide (a < 0))) else fin (a / b)

/-- Go conversion `float64(n)` of an `int`, exact (used only to word `sum / count`). -/
def ofInt (n : Int) : F64 := fin n

end F64

/-! ## Data model (lines 20-28) -/

/-- The struct `measurementDetails` (lines 20-25). -/
structure measurementDetails where
  min : F64
  max : F64
  count : Int
  total : F64
  deriving DecidableEq

/-- The type of the global `detailsMap` (line 28): a Go `map[string]measurementDetails`. -/
abbrev DetailsMap := List (String × measurementDetails)

/-- Go `value, ok := m[key]`: `none` stands for `ok = false`. -/
def DetailsMap.get : DetailsMap → String → Option measurementDetails
  | [], _ => none
  | (k, v) :: m, key => if k = key then some v else DetailsMap.get m key

/-- Go `m[key] = value`: overwrite the pair of `key`, or add one. -/
def DetailsMap.set : DetailsMap → String → measurementDetails → DetailsMap
  | [], key, value => [(key, value)]
  | (k, v) :: m, key, value =>
    if k = key then (k, value) :: m else (k, v) :: DetailsMap.set m key value

/-- The keys a `range` over the map visits. -/
def DetailsMap.keys (m : DetailsMap) : List String := m.map Prod.fst

/-- A non-nil `scanner.Err()` (line 146): a line beyond the token limit of
`bufio.Scanner`, or a failed read of the file. -/
inductive ScanError where
  | tooLong : ScanError
  | readFailed : ScanError
  deriving DecidableEq

/-- The ways a goroutine of the program panics: `data[1]` out of range (line 35),
the conversion error (line 37), the scanner error (line 147). -/
inductive Panic where
  | indexOutOfRange : Panic
  | convertError (field : String) : Panic
  | scanner (err : ScanError) : Panic
  deriving DecidableEq

/-- Wrap-around of a Go `int` (64 bits, two's complement). -/
def wrapInt (n : Int) : Int := Int.bmod n (2 ^ 64)

/-! ## processData (lines 33-66) -/

/-- Lines 34-38 of `processData`: `data[0]`, `data[1]` and `strconv.ParseFloat`. -/
def readFields (ParseFloat : String → Option F64) (data : List String) :
    Except Panic (String × F64) :=
  match data with
  | [] => .error .indexOutOfRange
  | cityName :: rest =>
    match rest with
    | [] => .error .indexOutOfRange
    | field :: _ =>
      match ParseFloat field with
      | none => .error (.convertError field)
      | some reading => .ok (cityName, reading)

/-- Lines 55-65 of `processData`: the local variable `existingReading` after the
updates.  It is a copy of the map value. -/
def existingReading (value : measurementDetails) (reading : F64) : measurementDetails :=
  let e := value
  let e := { e with count := wrapInt (e.count + 1) }
  let e := if F64.lt reading e.min then { e with min := reading } else e
  let e := if F64.lt e.max reading then { e with max := reading } else e
  { e with total := F64.add e.total reading }

/-- Lines 40-66 of `processData`: the critical section.  For a key that is absent
the new record is stored (line 51).  For a key that is present the function
updates `existingReading` and returns; no statement assigns it to the map. -/
def storeReading (detailsMap : DetailsMap) (cityName : String) (reading : F64) :
    DetailsMap :=
  match detailsMap.get cityName with
  | none =>
    let measurement : measurementDetails :=
      { min := reading, max := reading, count := 1, total := reading }
    detailsMap.set cityName measurement
  | some value =>
    let _dropped := existingReading value reading
    detailsMap

/-- The function `processData` (lines 33-66). -/
def processData (ParseFloat : String → Option F64) (detailsMap : DetailsMap)
    (data : List String) : Except Panic DetailsMap :=
  match readFields ParseFloat data with
  | .error e => .error e
  | .ok (cityName, reading) => .ok (storeReading detailsMap cityName reading)

/-! ## worker (lines 72-84) -/

/-- Go `strings.Split` with a one-character separator, on the characters of the line. -/
def splitChars (sep : Char) : List Char → List (List Char)
  | [] => [[]]
  | c :: cs =>
    if c = sep then [] :: splitChars sep cs
    else
      match splitChars sep cs with
      | [] => [[c]]
      | f :: fs => (c :: f) :: fs

/-- Go `strings.Split(data, ";")` (line 80). -/
def Split (data : String) : List String := (splitChars ';' data.data).map String.mk

/-- The loop of `worker` (lines 73-83) over the lines it receives, in order. -/
def worker (ParseFloat : String → Option F64) :
    DetailsMap → List String → Except Panic DetailsMap
  | detailsMap, [] => .ok detailsMap
  | detailsMap, data :: more =>
    match processData ParseFloat detailsMap (Split data) with
    | .error e => .error e
    | .ok next => worker ParseFloat next more

/-- Line 80 followed by lines 34-38: what a raw line is parsed to. -/
def parseLine (ParseFloat : String → Option F64) (data : String) :
    Except Panic (String × F64) :=
  readFields ParseFloat (Split data)

/-! ## main (lines 125-158) -/

/-- One `Printf` of line 157: key, min, mean, max (before `%.2f` rendering). -/
structure Entry where
  key : String
  min : F64
  mean : F64
  max : F64
  deriving DecidableEq

/-- Line 156: `mean := measurementDetail.total / measurementDetail.total`. -/
def mean (measurementDetail : measurementDetails) : F64 :=
  F64.div measurementDetail.total measurementDetail.total

/-- The loop of lines 154-158. -/
def report (detailsMap : DetailsMap) : List Entry :=
  detailsMap.map fun (key, value) =>
    { key := key, min := value.min, mean := mean value, max := value.max }

/-- What a run leaves behind: the entries printed and the panic that ended it, if any. -/
structure Outcome where
  printed : List Entry
  panicked : Option Panic
  deriving DecidableEq

/-- The function `main` once the file is open (lines 125-158).  `lines` are the
texts the reader goroutine sent (lines 142-144) and `scanErr` is `scanner.Err()`
(line 146), `none` for nil.  A panic in a worker ends the process while `main`
is in `wg.Wait()`.  A non-nil `scanErr` makes the reader panic (line 147) before
the channel is closed, so no worker reaches `wg.Done()` and `main` again never
leaves `wg.Wait()`.  Only when neither happens does the loop of line 154 print.
When both a worker and the reader would panic the outcome names the worker. -/
def main (ParseFloat : String → Option F64) (lines : List String)
    (scanErr : Option ScanError) : Outcome :=
  match worker ParseFloat [] lines with
  | .error e => { printed := [], panicked := some e }
  | .ok detailsMap =>
    match scanErr with
    | some err => { printed := [], panicked := some (.scanner err) }
    | none => { printed := report detailsMap, panicked := none }

/-! ## An instance of `strconv.ParseFloat` -/

/-- Value of a decimal digit. -/
def digitValue (c : Char) : Option Nat :=
  if 48 ≤ c.toNat ∧ c.toNat ≤ 57 then some (c.toNat - 48) else none

/-- Value of a run of decimal digits, most significant first, on top of `acc`. -/
def digitsValue : Nat → List Char → Option Nat
  | acc, [] => some acc
  | acc, c :: cs =>
    match digitValue c with
    | none => none
    | some d => digitsValue (10 * acc + d) cs

/-- The text after the first `.`, if there is one. -/
def afterPoint : List Char → Option (List Char)
  | [] => none
  | c :: cs => if c = '.' then some cs else afterPoint cs

/-- The text before the first `.`. -/
def beforePoint : List Char → List Char
  | [] => []
  | c :: cs => if c = '.' then [] else c :: beforePoint cs

/-- Unsigned decimal text `ddd`, `ddd.ddd`, `ddd.` or `.ddd` with at least one digit. -/
def unsignedDecimal (cs : List Char) : Option ℚ :=
  let whole := beforePoint cs
  let frac := (afterPoint cs).getD []
  if whole.length + frac.length = 0 then none
  else
    match digitsValue 0 whole, digitsValue 0 frac with
    | some w, some f => some ((w : ℚ) + (f : ℚ) / (10 ^ frac.length : ℕ))
    | _, _ => none

/-- The instance of `strconv.ParseFloat(s, 64)` on plain decimal text: an optional
sign, digits and an optional fraction.  The other forms the library accepts
(exponent, hexadecimal, underscores, `Inf`, `NaN`) are not covered, and the value
is the exact decimal rather than the nearest `float64`. -/
def decimalParseFloat (s : String) : Option F64 :=
  match s.data with
  | '-' :: cs => (unsignedDecimal cs).map fun q => F64.fin (-q)
  | '+' :: cs => (unsignedDecimal cs).map F64.fin
  | cs => (unsignedDecimal cs).map F64.fin

/-! ## The statistics as the specification words them -/

/-- The entry the specification's fold gives for a key already present:
`count += 1`, `min = min(min, r)`, `max = max(max, r)`, `sum += r`. -/
def specFold (value : measurementDetails) (r : F64) : measurementDetails :=
  { min := if F64.lt r value.min then r else value.min
    max := if F64.lt value.max r then r else value.max
    count := value.count + 1
    total := F64.add value.total r }

/-- The specification's mean: `sum / count`. -/
def specMean (value : measurementDetails) : F64 :=
  F64.div value.total (F64.ofInt value.count)

/-- The key of a raw line: its first field. -/
def lineKey (data : String) : Option String := (Split data).head?

/-- The number of lines of the input whose key is `k`. -/
def linesWithKey (k : String) (lines : List String) : Nat :=
  (lines.filter fun data => lineKey data = some k).length

/-- The record line 45 builds for a first reading. -/
def firstRecord (reading : F64) : measurementDetails :=
  { min := reading, max := reading, count := 1, total := reading }

/-- The reading of the first line of the input whose key is `k`. -/
def firstReading (ParseFloat : String → Option F64) : List String → String → Option F64
  | [], _ => none
  | data :: more, k =>
    match parseLine ParseFloat data with
    | .ok (cityName, reading) =>
      if cityName = k then some reading else firstReading ParseFloat more k
    | .error _ => firstReading ParseFloat more k

/-- A valid line: line 80 and lines 34-38 give a key and a reading. -/
def ValidLine (ParseFloat : String → Option F64) (data : String) : Prop :=
  ∃ p, parseLine ParseFloat data = .ok p

/-- Validity of a line is decided by running the parse. -/
instance instDecidableValidLine (ParseFloat : String → Option F64) (data : String) :
    Decidable (ValidLine ParseFloat data) :=
  match h : parseLine ParseFloat data with
  | .ok p => isTrue ⟨p, h⟩
  | .error _ => isFalse (fun ⟨q, hq⟩ => by rw [h] at hq; exact Except.noConfusion hq)

/-! ## The map -/

theorem get_set_self (m : DetailsMap) (k : String) (v : measurementDetails) :
    (m.set k v).get k = some v := by
  induction m with
  | nil => simp [DetailsMap.set, DetailsMap.get]
  | cons p m ih =>
    obtain ⟨k0, v0⟩ := p
    by_cases h : k0 = k
    · simp [DetailsMap.set, DetailsMap.get, h]
    · simp [DetailsMap.set, DetailsMap.get, h, ih]

theorem get_set_ne (m : DetailsMap) (k k1 : String) (v : measurementDetails) (hne : k1 ≠ k) :
    (m.set k v).get k1 = m.get k1 := by
  induction m with
  | nil =>
    have : ¬ k = k1 := fun h => hne h.symm
    simp [DetailsMap.set, DetailsMap.get, this]
  | cons p m ih =>
    obtain ⟨k0, v0⟩ := p
    by_cases h : k0 = k
    · subst h
      have : ¬ k0 = k1 := fun h => hne h.symm
      simp [DetailsMap.set, DetailsMap.get, this]
    · by_cases h1 : k0 = k1
      · subst h1
        simp [DetailsMap.set, DetailsMap.get, h]
      · simp [DetailsMap.set, DetailsMap.get, h, h1, ih]

theorem get_eq_none_iff (m : DetailsMap) (k : String) :
    m.get k = none ↔ k ∉ m.keys := by
  induction m with
  | nil => simp [DetailsMap.get, DetailsMap.keys]
  | cons p m ih =>
    obtain ⟨k0, v0⟩ := p
    by_cases h : k0 = k
    · simp [DetailsMap.get, DetailsMap.keys, h]
    · have h1 : ¬ k = k0 := fun e => h e.symm
      simp only [DetailsMap.keys] at ih
      simp [DetailsMap.get, DetailsMap.keys, h, h1, ih]

theorem keys_set_absent (m : DetailsMap) (k : String) (v : measurementDetails)
    (habs : m.get k = none) : (m.set k v).keys = m.keys ++ [k] := by
  induction m with
  | nil => simp [DetailsMap.set, DetailsMap.keys]
  | cons p m ih =>
    obtain ⟨k0, v0⟩ := p
    by_cases h : k0 = k
    · simp [DetailsMap.get, h] at habs
    · simp only [DetailsMap.get, h, if_false] at habs
      have := ih habs
      simp only [DetailsMap.keys] at this
      simp [DetailsMap.set, DetailsMap.keys, h, this]

/-! ## The critical section -/

theorem storeReading_absent (m : DetailsMap) (c : String) (r : F64) (habs : m.get c = none) :
    storeReading m c r = m.set c (firstRecord r) := by
  simp [storeReading, habs, firstRecord]

theorem storeReading_present (m : DetailsMap) (c : String) (r : F64) (v : measurementDetails)
    (hget : m.get c = some v) : storeReading m c r = m := by
  simp [storeReading, hget]

theorem get_storeReading (m : DetailsMap) (c k : String) (r : F64) :
    (storeReading m c r).get k =
      match m.get k with
      | some v => some v
      | none => if c = k then some (firstRecord r) else none := by
  cases hc : m.get c with
  | some v =>
    rw [storeReading_present m c r v hc]
    cases hk : m.get k with
    | some w => rfl
    | none =>
      have : ¬ c = k := by
        intro e
        rw [e] at hc
        rw [hc] at hk
        exact Option.noConfusion hk
      simp [this]
  | none =>
    rw [storeReading_absent m c r hc]
    by_cases e : c = k
    · subst e
      rw [get_set_self, hc]
      simp
    · have e1 : k ≠ c := fun h => e h.symm
      rw [get_set_ne m c k _ e1]
      cases hk : m.get k <;> simp [e]

theorem keys_storeReading (m : DetailsMap) (c : String) (r : F64) :
    (storeReading m c r).keys = if c ∈ m.keys then m.keys else m.keys ++ [c] := by
  cases hc : m.get c with
  | some v =>
    have hin : c ∈ m.keys := by
      by_contra hn
      have := (get_eq_none_iff m c).2 hn
      rw [hc] at this
      exact Option.noConfusion this
    rw [storeReading_present m c r v hc]
    simp [hin]
  | none =>
    have hn : c ∉ m.keys := (get_eq_none_iff m c).1 hc
    rw [storeReading_absent m c r hc, keys_set_absent m c _ hc]
    simp [hn]

theorem nodup_storeReading (m : DetailsMap) (c : String) (r : F64) (hm : m.keys.Nodup) :
    (storeReading m c r).keys.Nodup := by
  rw [keys_storeReading]
  by_cases hin : c ∈ m.keys
  · simpa [hin] using hm
  · simp only [hin, if_false]
    exact List.Nodup.append hm (List.nodup_singleton c) (by simpa using hin)

/-! ## Splitting a line -/

theorem splitChars_ne_nil (sep : Char) (cs : List Char) : splitChars sep cs ≠ [] := by
  cases cs with
  | nil => simp [splitChars]
  | cons c cs =>
    by_cases h : c = sep
    · simp [splitChars, h]
    · cases hs : splitChars sep cs <;> simp [splitChars, h, hs]

theorem length_splitChars (sep : Char) (cs : List Char) :
    (splitChars sep cs).length = cs.count sep + 1 := by
  induction cs with
  | nil => simp [splitChars]
  | cons c cs ih =>
    by_cases h : c = sep
    · subst h
      simp [splitChars, ih]
    · have hne : splitChars sep cs ≠ [] := splitChars_ne_nil sep cs
      cases hs : splitChars sep cs with
      | nil => exact absurd hs hne
      | cons f fs =>
        rw [hs] at ih
        have h1 : ¬ (c == sep) = true := by simpa using h
        simp [splitChars, h, hs, List.count_cons, h1] at ih ⊢
        exact ih

theorem length_Split (data : String) : (Split data).length = data.data.count ';' + 1 := by
  simp [Split, length_splitChars]

theorem Split_short_iff (data : String) :
    (Split data).length < 2 ↔ ';' ∉ data.data := by
  rw [length_Split]
  constructor
  · intro h
    have : data.data.count ';' = 0 := by omega
    exact List.count_eq_zero.1 this
  · intro h
    have : data.data.count ';' = 0 := List.count_eq_zero.2 h
    omega

/-! ## Parsing a line -/

theorem parseLine_key (PF : String → Option F64) (data c : String) (r : F64)
    (h : parseLine PF data = .ok (c, r)) : lineKey data = some c := by
  unfold parseLine readFields at h
  unfold lineKey
  cases hs : Split data with
  | nil => rw [hs] at h; simp at h
  | cons a rest =>
    rw [hs] at h
    cases rest with
    | nil => simp at h
    | cons f more =>
      cases hp : PF f with
      | none => simp [hp] at h
      | some x =>
        simp [hp] at h
        simp [h.1]

theorem processData_of_parse (PF : String → Option F64) (m : DetailsMap) (data c : String)
    (r : F64) (h : parseLine PF data = .ok (c, r)) :
    processData PF m (Split data) = .ok (storeReading m c r) := by
  unfold parseLine at h
  simp [processData, h]

theorem processData_error (PF : String → Option F64) (m : DetailsMap) (data : String)
    (e : Panic) (h : parseLine PF data = .error e) :
    processData PF m (Split data) = .error e := by
  unfold parseLine at h
  simp [processData, h]

/-! ## Runs of the worker loop -/

theorem worker_valid (PF : String → Option F64) (lines : List String)
    (hvalid : ∀ l ∈ lines, ValidLine PF l) (m : DetailsMap) :
    ∃ m1, worker PF m lines = .ok m1 ∧
      (∀ k, m1.get k =
        match m.get k with
        | some v => some v
        | none => (firstReading PF lines k).map firstRecord) ∧
      (m.keys.Nodup → m1.keys.Nodup) := by
  induction lines generalizing m with
  | nil =>
    refine ⟨m, rfl, ?_, fun h => h⟩
    intro k
    cases m.get k <;> simp [firstReading]
  | cons data more ih =>
    obtain ⟨⟨c, r⟩, hp⟩ := hvalid data (List.mem_cons_self _ _)
    have hmore : ∀ l ∈ more, ValidLine PF l := fun l hl => hvalid l (List.mem_cons_of_mem _ hl)
    obtain ⟨m1, hrun, hget, hnd⟩ := ih hmore (storeReading m c r)
    refine ⟨m1, ?_, ?_, fun h => hnd (nodup_storeReading m c r h)⟩
    · simp [worker, processData_of_parse PF m data c r hp, hrun]
    · intro k
      rw [hget k, get_storeReading]
      cases hk : m.get k with
      | some v => rfl
      | none =>
        by_cases e : c = k
        · simp [firstReading, hp, e]
        · simp [firstReading, hp, e]

theorem worker_invalid (PF : String → Option F64) (lines : List String)
    (hbad : ∃ l ∈ lines, ¬ ValidLine PF l) (m : DetailsMap) :
    ∃ e, worker PF m lines = .error e := by
  induction lines generalizing m with
  | nil =>
    obtain ⟨l, hl, _⟩ := hbad
    simp at hl
  | cons data more ih =>
    cases hp : parseLine PF data with
    | error e =>
      exact ⟨e, by simp [worker, processData_error PF m data e hp]⟩
    | ok p =>
      obtain ⟨c, r⟩ := p
      have hmore : ∃ l ∈ more, ¬ ValidLine PF l := by
        obtain ⟨l, hl, hn⟩ := hbad
        rcases List.mem_cons.1 hl with rfl | hl
        · exact absurd ⟨(c, r), hp⟩ hn
        · exact ⟨l, hl, hn⟩
      obtain ⟨e, he⟩ := ih hmore (storeReading m c r)
      exact ⟨e, by simp [worker, processData_of_parse PF m data c r hp, he]⟩

theorem firstReading_isSome_iff (PF : String → Option F64) (lines : List String)
    (hvalid : ∀ l ∈ lines, ValidLine PF l) (k : String) :
    (∃ r, firstReading PF lines k = some r) ↔ ∃ l ∈ lines, lineKey l = some k := by
  induction lines with
  | nil => simp [firstReading]
  | cons data more ih =>
    obtain ⟨⟨c, r⟩, hp⟩ := hvalid data (List.mem_cons_self _ _)
    have hmore : ∀ l ∈ more, ValidLine PF l := fun l hl => hvalid l (List.mem_cons_of_mem _ hl)
    have hkey := parseLine_key PF data c r hp
    by_cases e : c = k
    · subst e
      constructor
      · intro _
        exact ⟨data, List.mem_cons_self _ _, hkey⟩
      · intro _
        exact ⟨r, by simp [firstReading, hp]⟩
    · constructor
      · rintro ⟨x, hx⟩
        simp only [firstReading, hp, e, if_false] at hx
        obtain ⟨l, hl, hlk⟩ := (ih hmore).1 ⟨x, hx⟩
        exact ⟨l, List.mem_cons_of_mem _ hl, hlk⟩
      · rintro ⟨l, hl, hlk⟩
        rcases List.mem_cons.1 hl with rfl | hl
        · rw [hkey] at hlk
          exact absurd (Option.some.inj hlk) e
        · obtain ⟨x, hx⟩ := (ih hmore).2 ⟨l, hl, hlk⟩
          exact ⟨x, by simp [firstReading, hp, e, hx]⟩

theorem mem_keys_iff (m : DetailsMap) (k : String) :
    k ∈ m.keys ↔ ∃ v, m.get k = some v := by
  constructor
  · intro h
    cases hg : m.get k with
    | none => exact absurd h ((get_eq_none_iff m k).1 hg)
    | some v => exact ⟨v, rfl⟩
  · rintro ⟨v, hv⟩
    by_contra hn
    rw [(get_eq_none_iff m k).2 hn] at hv
    exact Option.noConfusion hv

theorem report_keys (m : DetailsMap) : (report m).map Entry.key = m.keys := by
  simp [report, DetailsMap.keys, List.map_map, Function.comp_def]

/-! ## Concrete lines -/

theorem parse_10_5 : decimalParseFloat "10.5" = some (F64.fin (21 / 2)) := by
  simp [decimalParseFloat, unsignedDecimal, beforePoint, afterPoint, digitsValue, digitValue]
  norm_num

theorem parse_20_0 : decimalParseFloat "20.0" = some (F64.fin 20) := by
  simp [decimalParseFloat, unsignedDecimal, beforePoint, afterPoint, digitsValue, digitValue]

theorem parse_1 : decimalParseFloat "1" = some (F64.fin 1) := by
  simp [decimalParseFloat, unsignedDecimal, beforePoint, afterPoint, digitsValue, digitValue]

theorem parse_abc : decimalParseFloat "abc" = none := by
  simp [decimalParseFloat, unsignedDecimal, beforePoint, afterPoint, digitsValue, digitValue]

theorem split_paris_10_5 : Split "Paris;10.5" = ["Paris", "10.5"] := by decide

theorem split_paris_20_0 : Split "Paris;20.0" = ["Paris", "20.0"] := by decide

theorem split_paris_abc : Split "Paris;abc" = ["Paris", "abc"] := by decide

theorem split_oslo_1 : Split "Oslo;1" = ["Oslo", "1"] := by decide

theorem split_a_1_2 : Split "a;1;2" = ["a", "1", "2"] := by decide

theorem parseLine_paris_10_5 :
    parseLine decimalParseFloat "Paris;10.5" = .ok ("Paris", F64.fin (21 / 2)) := by
  simp [parseLine, readFields, split_paris_10_5, parse_10_5]

theorem parseLine_paris_20_0 :
    parseLine decimalParseFloat "Paris;20.0" = .ok ("Paris", F64.fin 20) := by
  simp [parseLine, readFields, split_paris_20_0, parse_20_0]

theorem parseLine_oslo_1 :
    parseLine decimalParseFloat "Oslo;1" = .ok ("Oslo", F64.fin 1) := by
  simp [parseLine, readFields, split_oslo_1, parse_1]

theorem worker_paris_10_5_then_20_0 :
    worker decimalParseFloat [] ["Paris;10.5", "Paris;20.0"] =
      .ok [("Paris", firstRecord (F64.fin (21 / 2)))] := by
  simp [worker, processData_of_parse _ _ _ _ _ parseLine_paris_10_5,
    processData_of_parse _ _ _ _ _ parseLine_paris_20_0, storeReading, DetailsMap.get,
    DetailsMap.set, firstRecord]

theorem worker_paris_20_0_then_10_5 :
    worker decimalParseFloat [] ["Paris;20.0", "Paris;10.5"] =
      .ok [("Paris", firstRecord (F64.fin 20))] := by
  simp [worker, processData_of_parse _ _ _ _ _ parseLine_paris_10_5,
    processData_of_parse _ _ _ _ _ parseLine_paris_20_0, storeReading, DetailsMap.get,
    DetailsMap.set, firstRecord]

theorem worker_paris_10_5 :
    worker decimalParseFloat [] ["Paris;10.5"] =
      .ok [("Paris", firstRecord (F64.fin (21 / 2)))] := by
  simp [worker, processData_of_parse _ _ _ _ _ parseLine_paris_10_5, storeReading,
    DetailsMap.get, DetailsMap.set, firstRecord]

theorem mean_firstRecord_10_5 : mean (firstRecord (F64.fin (21 / 2))) = F64.fin 1 := by
  simp [mean, firstRecord, F64.div]

/-! ## The claims -/

/-- C1 (the code departs from it): after `Paris;10.5` the key `Paris` is present
with `min = max = total = 10.5` and `count = 1`; folding `Paris;20.0` leaves that
entry in the map, although the local copy `existingReading` holds the updated
entry `min = 10.5`, `max = 20`, `count = 2`, `total = 30.5` that the claim
describes. -/
theorem paris_second_reading_not_stored :
    worker decimalParseFloat [] ["Paris;10.5"] =
        .ok [("Paris", firstRecord (F64.fin (21 / 2)))] ∧
      processData decimalParseFloat [("Paris", firstRecord (F64.fin (21 / 2)))]
          (Split "Paris;20.0") =
        .ok [("Paris", ⟨F64.fin (21 / 2), F64.fin (21 / 2), 1, F64.fin (21 / 2)⟩)] ∧
      existingReading (firstRecord (F64.fin (21 / 2))) (F64.fin 20) =
        ⟨F64.fin (21 / 2), F64.fin 20, 2, F64.fin (61 / 2)⟩ ∧
      specFold (firstRecord (F64.fin (21 / 2))) (F64.fin 20) =
        ⟨F64.fin (21 / 2), F64.fin 20, 2, F64.fin (61 / 2)⟩ := by
  refine ⟨worker_paris_10_5, ?_, ?_, ?_⟩
  · simp [processData_of_parse _ _ _ _ _ parseLine_paris_20_0, storeReading, DetailsMap.get,
      firstRecord]
  · have h1 : F64.lt (F64.fin 20) (F64.fin (21 / 2)) = false := by
      simp [F64.lt]; norm_num
    have h2 : F64.lt (F64.fin (21 / 2)) (F64.fin 20) = true := by
      simp [F64.lt]; norm_num
    have h3 : wrapInt 2 = 2 := by decide
    have h4 : F64.add (F64.fin (21 / 2)) (F64.fin 20) = F64.fin (61 / 2) := by
      simp [F64.add]; norm_num
    simp [existingReading, firstRecord, h1, h2, h3, h4]
  · have h1 : F64.lt (F64.fin 20) (F64.fin (21 / 2)) = false := by
      simp [F64.lt]; norm_num
    have h2 : F64.lt (F64.fin (21 / 2)) (F64.fin 20) = true := by
      simp [F64.lt]; norm_num
    have h4 : F64.add (F64.fin (21 / 2)) (F64.fin 20) = F64.fin (61 / 2) := by
      simp [F64.add]; norm_num
    simp [specFold, firstRecord, h1, h2, h4]

/-- C2 (the code departs from it): for the input `Paris;10.5`, scanned without
error, the entry printed
for `Paris` carries the mean `1`, the quotient `total / total` of line 156, while
the sum of readings divided by the count is `10.5 / 1 = 10.5`. -/
theorem paris_mean_is_total_over_total :
    main decimalParseFloat ["Paris;10.5"] none =
        { printed := [⟨"Paris", F64.fin (21 / 2), F64.fin 1, F64.fin (21 / 2)⟩],
          panicked := none } ∧
      specMean (firstRecord (F64.fin (21 / 2))) = F64.fin (21 / 2) ∧
      mean (firstRecord (F64.fin (21 / 2))) ≠ specMean (firstRecord (F64.fin (21 / 2))) := by
  have hs : specMean (firstRecord (F64.fin (21 / 2))) = F64.fin (21 / 2) := by
    simp [specMean, firstRecord, F64.div, F64.ofInt]
  refine ⟨?_, hs, ?_⟩
  · simp [main, worker_paris_10_5, report, mean_firstRecord_10_5]
    simp [firstRecord]
  · rw [hs, mean_firstRecord_10_5]
    intro h
    have h1 : (1 : ℚ) = 21 / 2 := F64.fin.inj h
    norm_num at h1

/-- C3 (the code departs from it): the input `Paris;10.5`, `Paris;20.0` has two
lines with the key `Paris`, and the `count` of the entry of `Paris` after both
lines are folded is `1`. -/
theorem paris_count_stays_one :
    linesWithKey "Paris" ["Paris;10.5", "Paris;20.0"] = 2 ∧
      ∃ m, worker decimalParseFloat [] ["Paris;10.5", "Paris;20.0"] = .ok m ∧
        (m.get "Paris").map measurementDetails.count = some 1 := by
  refine ⟨by decide, _, worker_paris_10_5_then_20_0, ?_⟩
  simp [DetailsMap.get, firstRecord]

/-- C4 (the code departs from it): `Paris;20.0`, `Paris;10.5` is a permutation
of `Paris;10.5`, `Paris;20.0`; folding the first from the empty map leaves
`min = 20` for `Paris`, folding the second leaves `min = 10.5`, and the printed
entries differ. -/
theorem fold_order_changes_entry :
    List.Perm ["Paris;10.5", "Paris;20.0"] ["Paris;20.0", "Paris;10.5"] ∧
      worker decimalParseFloat [] ["Paris;10.5", "Paris;20.0"] =
        .ok [("Paris", ⟨F64.fin (21 / 2), F64.fin (21 / 2), 1, F64.fin (21 / 2)⟩)] ∧
      worker decimalParseFloat [] ["Paris;20.0", "Paris;10.5"] =
        .ok [("Paris", ⟨F64.fin 20, F64.fin 20, 1, F64.fin 20⟩)] ∧
      (main decimalParseFloat ["Paris;10.5", "Paris;20.0"] none).printed ≠
        (main decimalParseFloat ["Paris;20.0", "Paris;10.5"] none).printed := by
  refine ⟨List.Perm.swap _ _ _, ?_, ?_, ?_⟩
  · rw [worker_paris_10_5_then_20_0]; rfl
  · rw [worker_paris_20_0_then_10_5]; rfl
  · simp only [main, worker_paris_10_5_then_20_0, worker_paris_20_0_then_10_5, report,
      firstRecord, List.map]
    intro h
    have h1 := (List.cons.inj h).1
    have h2 : F64.fin (21 / 2) = F64.fin 20 := congrArg Entry.min h1
    have h3 : (21 / 2 : ℚ) = 20 := F64.fin.inj h2
    norm_num at h3

/-- C6 (the code departs from it): for the input `Paris;10.5` the printed entry
has `min = 10.5`, `mean = 1` and `max = 10.5`, so `min <= mean` is false. -/
theorem paris_mean_below_min :
    (main decimalParseFloat ["Paris;10.5"] none).printed.map
        (fun e => (e.key, F64.le e.min e.mean, F64.le e.mean e.max)) =
      [("Paris", false, true)] := by
  simp [main, worker_paris_10_5, report, mean_firstRecord_10_5]
  simp [firstRecord, F64.le]
  norm_num

/-- C5, as stated, fails: the line `a;1;2` splits into three fields, and line 80
followed by lines 34-38 yields the pair (`a`, 1) instead of a failure. -/
theorem three_fields_accepted :
    (Split "a;1;2").length = 3 ∧
      parseLine decimalParseFloat "a;1;2" = .ok ("a", F64.fin 1) ∧
      ¬ ((∃ e, parseLine decimalParseFloat "a;1;2" = .error e) ↔
          (';' ∉ "a;1;2".data ∨ (Split "a;1;2").length ≠ 2 ∨
            ∃ f, (Split "a;1;2")[1]? = some f ∧ decimalParseFloat f = none)) := by
  have hp : parseLine decimalParseFloat "a;1;2" = .ok ("a", F64.fin 1) := by
    simp [parseLine, readFields, split_a_1_2, parse_1]
  refine ⟨by decide, hp, ?_⟩
  intro h
  have hlen : (Split "a;1;2").length ≠ 2 := by decide
  obtain ⟨e, he⟩ := h.2 (Or.inr (Or.inl hlen))
  rw [hp] at he
  exact Except.noConfusion he

/-- C5, amended: line 80 followed by lines 34-38 fails exactly when the line has
no `;` (so that `data[1]` is out of range) or its second field is not accepted by
`ParseFloat`; it yields a pair exactly when the line splits into at least two
fields and the second parses, and the pair is the first field with the parsed
second field, whatever fields follow. -/
theorem parseLine_fails_iff (PF : String → Option F64) (data : String) :
    ((∃ e, parseLine PF data = .error e) ↔
        (';' ∉ data.data ∨ ∃ f, (Split data)[1]? = some f ∧ PF f = none)) ∧
      (∀ p, parseLine PF data = .ok p ↔
        ∃ c f rest r, Split data = c :: f :: rest ∧ PF f = some r ∧ p = (c, r)) := by
  have hshort := Split_short_iff data
  unfold parseLine readFields
  cases hs : Split data with
  | nil =>
    rw [hs] at hshort
    have hno : ';' ∉ data.data := hshort.1 (by simp)
    simp [hno]
  | cons c rest =>
    cases rest with
    | nil =>
      rw [hs] at hshort
      have hno : ';' ∉ data.data := hshort.1 (by simp)
      simp [hno]
    | cons f more =>
      rw [hs] at hshort
      have hyes : ¬ ';' ∉ data.data := fun hno => by
        have := hshort.2 hno
        simp only [List.length_cons] at this
        omega
      cases hp : PF f with
      | none => simp [hp]
      | some r =>
        refine ⟨?_, ?_⟩
        · simp [hp, hyes]
        · intro p
          constructor
          · intro h
            have hpe : p = (c, r) := by
              simp only [hp, Except.ok.injEq] at h
              exact h.symm
            exact ⟨c, f, more, r, rfl, hp, hpe⟩
          · rintro ⟨c1, f1, rest1, r1, hsplit, hpf, hpe⟩
            obtain ⟨h1, h2⟩ := List.cons.inj hsplit
            obtain ⟨h3, _⟩ := List.cons.inj h2
            subst h1 h3
            rw [hp] at hpf
            rw [hpe, ← Option.some.inj hpf]
            simp [hp]

/-- C5, amended, at `Paris;abc` (a failure) and at `a;1;2` (a pair). -/
theorem parseLine_fails_iff_witness :
    (∃ e, parseLine decimalParseFloat "Paris;abc" = .error e) ∧
      parseLine decimalParseFloat "a;1;2" = .ok ("a", F64.fin 1) :=
  ⟨(parseLine_fails_iff decimalParseFloat "Paris;abc").1.2
      (Or.inr ⟨"abc", by simp [split_paris_abc], parse_abc⟩),
    ((parseLine_fails_iff decimalParseFloat "a;1;2").2 ("a", F64.fin 1)).2
      ⟨"a", "1", ["2"], F64.fin 1, split_a_1_2, parse_1, rfl⟩⟩

/-- C7: when the key `c` is absent from the map and the fields of `data` read as
the key `c` and the reading `r`, `processData` returns normally, the map then
holds for `c` exactly `min = r`, `max = r`, `count = 1`, `total = r`, every other
key has the entry it had, and `c` is the one key added. -/
theorem processData_absent_inserts (PF : String → Option F64) (m : DetailsMap)
    (data : List String) (c : String) (r : F64)
    (hread : readFields PF data = .ok (c, r)) (habs : m.get c = none) :
    ∃ m1, processData PF m data = .ok m1 ∧
      m1.get c = some { min := r, max := r, count := 1, total := r } ∧
      (∀ k, k ≠ c → m1.get k = m.get k) ∧
      m1.keys = m.keys ++ [c] := by
  refine ⟨m.set c (firstRecord r), ?_, ?_, ?_, ?_⟩
  · simp [processData, hread, storeReading_absent m c r habs]
  · rw [get_set_self]; rfl
  · intro k hk
    exact get_set_ne m c k _ hk
  · exact keys_set_absent m c _ habs

/-- C7 at the map holding `Oslo` and the fields `Paris`, `10.5`. -/
theorem processData_absent_inserts_witness :
    ∃ m1, processData decimalParseFloat [("Oslo", firstRecord (F64.fin 1))] ["Paris", "10.5"] =
        .ok m1 ∧
      m1.get "Paris" = some ⟨F64.fin (21 / 2), F64.fin (21 / 2), 1, F64.fin (21 / 2)⟩ ∧
      (∀ k, k ≠ "Paris" → m1.get k = DetailsMap.get [("Oslo", firstRecord (F64.fin 1))] k) ∧
      m1.keys = DetailsMap.keys [("Oslo", firstRecord (F64.fin 1))] ++ ["Paris"] :=
  processData_absent_inserts decimalParseFloat [("Oslo", firstRecord (F64.fin 1))]
    ["Paris", "10.5"] "Paris" (F64.fin (21 / 2))
    (by simp [readFields, parse_10_5]) (by simp [DetailsMap.get])

/-- C8: when some line of the input splits into at least two fields and its
second field is not accepted by `ParseFloat`, wherever it stands among the other
lines and whatever the scanner reports, the run ends in a panic and prints no
entry; and for any input, entries are printed only when every line gave a key
and a reading, the scanner reported no error and the run did not panic. -/
theorem unparsable_line_stops_run (PF : String → Option F64) (lines : List String)
    (scanErr : Option ScanError)
    (hbad : ∃ l ∈ lines, ∃ c f rest, Split l = c :: f :: rest ∧ PF f = none) :
    (main PF lines scanErr).printed = [] ∧
      (∃ e, (main PF lines scanErr).panicked = some e) ∧
      (∀ lines1 scanErr1, (main PF lines1 scanErr1).printed ≠ [] →
        (∀ l ∈ lines1, ValidLine PF l) ∧ scanErr1 = none ∧
          (main PF lines1 scanErr1).panicked = none) := by
  have hinv : ∃ l ∈ lines, ¬ ValidLine PF l := by
    obtain ⟨l, hl, c, f, rest, hs, hf⟩ := hbad
    refine ⟨l, hl, ?_⟩
    rintro ⟨p, hp⟩
    simp [parseLine, readFields, hs, hf] at hp
  obtain ⟨e, he⟩ := worker_invalid PF lines hinv []
  refine ⟨by simp [main, he], ⟨e, by simp [main, he]⟩, ?_⟩
  intro lines1 scanErr1 hprinted
  have hall : ∀ l ∈ lines1, ValidLine PF l := by
    by_contra hn
    have hinv1 : ∃ l ∈ lines1, ¬ ValidLine PF l := by
      push_neg at hn
      exact hn
    obtain ⟨e1, he1⟩ := worker_invalid PF lines1 hinv1 []
    exact hprinted (by simp [main, he1])
  obtain ⟨m1, hrun1, _, _⟩ := worker_valid PF lines1 hall []
  cases hsc : scanErr1 with
  | some err =>
    exact absurd (by simp [main, hrun1, hsc]) hprinted
  | none =>
    exact ⟨hall, rfl, by simp [main, hrun1]⟩

/-- C8 at the input `Oslo;1`, `Paris;abc`, `Paris;10.5`. -/
theorem unparsable_line_stops_run_witness :
    (main decimalParseFloat ["Oslo;1", "Paris;abc", "Paris;10.5"] none).printed = [] ∧
      (∃ e, (main decimalParseFloat ["Oslo;1", "Paris;abc", "Paris;10.5"] none).panicked =
        some e) ∧
      (∀ lines1 scanErr1, (main decimalParseFloat lines1 scanErr1).printed ≠ [] →
        (∀ l ∈ lines1, ValidLine decimalParseFloat l) ∧ scanErr1 = none ∧
          (main decimalParseFloat lines1 scanErr1).panicked = none) :=
  unparsable_line_stops_run decimalParseFloat ["Oslo;1", "Paris;abc", "Paris;10.5"] none
    ⟨"Paris;abc", by simp, "Paris", "abc", [], split_paris_abc, parse_abc⟩

/-- C9: for valid lines the fold from the empty map returns normally; the keys of
the resulting map `m` are exactly the first fields occurring in the lines, each
once, and the loop of lines 154-158 over `m` emits one entry per such key.  The
run prints exactly those entries and does not panic when the scanner reported no
error; when the scanner reported an error the run panics with it and prints
nothing.  From any starting map the fold keeps every key and adds only keys of
folded lines.  For the empty input, scanned without error, the map is empty and
nothing is printed. -/
theorem keys_are_the_input_keys (PF : String → Option F64) (lines : List String)
    (hvalid : ∀ l ∈ lines, ValidLine PF l) :
    (∃ m, worker PF [] lines = .ok m ∧
        (∀ k, k ∈ m.keys ↔ ∃ l ∈ lines, lineKey l = some k) ∧
        ((report m).map Entry.key).Nodup ∧
        List.Perm ((report m).map Entry.key) (lines.filterMap lineKey).dedup ∧
        main PF lines none = { printed := report m, panicked := none } ∧
        (∀ err, main PF lines (some err) =
          { printed := [], panicked := some (Panic.scanner err) })) ∧
      (∀ m0, ∃ m1, worker PF m0 lines = .ok m1 ∧
        ∀ k, k ∈ m1.keys ↔ (k ∈ m0.keys ∨ ∃ l ∈ lines, lineKey l = some k)) ∧
      worker PF [] [] = .ok [] ∧
      main PF [] none = { printed := [], panicked := none } := by
  have hgen : ∀ m0, ∃ m1, worker PF m0 lines = .ok m1 ∧ (m0.keys.Nodup → m1.keys.Nodup) ∧
      ∀ k, k ∈ m1.keys ↔ (k ∈ m0.keys ∨ ∃ l ∈ lines, lineKey l = some k) := by
    intro m0
    obtain ⟨m1, hrun, hget, hnd⟩ := worker_valid PF lines hvalid m0
    refine ⟨m1, hrun, hnd, ?_⟩
    intro k
    rw [mem_keys_iff m1 k, mem_keys_iff m0 k, ← firstReading_isSome_iff PF lines hvalid k, hget k]
    cases hk : m0.get k with
    | some v => simp
    | none =>
      cases hf : firstReading PF lines k with
      | none => simp
      | some r => simp
  refine ⟨?_, ?_, rfl, ?_⟩
  · obtain ⟨m, hrun, hnd, hkeys⟩ := hgen []
    have hkeys1 : ∀ k, k ∈ m.keys ↔ ∃ l ∈ lines, lineKey l = some k := by
      intro k
      rw [hkeys k]
      simp [DetailsMap.keys]
    have hnodup : m.keys.Nodup := hnd (by simp [DetailsMap.keys])
    refine ⟨m, hrun, hkeys1, ?_, ?_, by simp [main, hrun], ?_⟩
    · rw [report_keys]; exact hnodup
    · rw [report_keys]
      refine (List.perm_ext_iff_of_nodup hnodup (List.nodup_dedup _)).2 ?_
      intro k
      rw [hkeys1 k, List.mem_dedup, List.mem_filterMap]
    · intro err
      simp [main, hrun]
  · intro m0
    obtain ⟨m1, hrun, _, hkeys⟩ := hgen m0
    exact ⟨m1, hrun, hkeys⟩
  · simp [main, worker, report]

/-- The lines `Paris;10.5`, `Oslo;1`, `Paris;20.0` are valid. -/
theorem valid_paris_oslo_paris :
    ∀ l ∈ ["Paris;10.5", "Oslo;1", "Paris;20.0"], ValidLine decimalParseFloat l := by
  intro l hl
  simp only [List.mem_cons, List.mem_singleton, List.not_mem_nil, or_false] at hl
  rcases hl with rfl | rfl | rfl
  · exact ⟨_, parseLine_paris_10_5⟩
  · exact ⟨_, parseLine_oslo_1⟩
  · exact ⟨_, parseLine_paris_20_0⟩

/-- C9 at the input `Paris;10.5`, `Oslo;1`, `Paris;20.0`. -/
theorem keys_are_the_input_keys_witness :
    (∀ l ∈ ["Paris;10.5", "Oslo;1", "Paris;20.0"], ValidLine decimalParseFloat l) ∧
      ∃ m, worker decimalParseFloat [] ["Paris;10.5", "Oslo;1", "Paris;20.0"] = .ok m ∧
        List.Perm ((report m).map Entry.key)
          (["Paris;10.5", "Oslo;1", "Paris;20.0"].filterMap lineKey).dedup ∧
        main decimalParseFloat ["Paris;10.5", "Oslo;1", "Paris;20.0"] none =
          { printed := report m, panicked := none } ∧
        main decimalParseFloat ["Paris;10.5", "Oslo;1", "Paris;20.0"] (some .tooLong) =
          { printed := [], panicked := some (Panic.scanner .tooLong) } :=
  ⟨valid_paris_oslo_paris,
    match (keys_are_the_input_keys decimalParseFloat ["Paris;10.5", "Oslo;1", "Paris;20.0"]
      valid_paris_oslo_paris).1 with
    | ⟨m, hrun, _, _, hperm, hmain, hscan⟩ => ⟨m, hrun, hperm, hmain, hscan .tooLong⟩⟩

/-- C10: `processData` on fields whose key is present returns the map it was
given; hence, for an input of valid lines folded from the empty map, the fold
returns normally and each key `k` is bound exactly when some line carries it, to
`min = r0`, `max = r0`, `count = 1`, `total = r0` with `r0` the reading of the
first line whose key is `k`. -/
theorem present_key_keeps_first_reading (PF : String → Option F64) (lines : List String)
    (hvalid : ∀ l ∈ lines, ValidLine PF l) :
    (∀ (m : DetailsMap) (data : List String) (c : String) (r : F64) (v : measurementDetails),
        readFields PF data = .ok (c, r) → m.get c = some v → processData PF m data = .ok m) ∧
      ∃ m, worker PF [] lines = .ok m ∧
        ∀ k, m.get k =
          (firstReading PF lines k).map
            (fun r0 => { min := r0, max := r0, count := 1, total := r0 }) := by
  refine ⟨?_, ?_⟩
  · intro m data c r v hread hget
    simp [processData, hread, storeReading_present m c r v hget]
  · obtain ⟨m, hrun, hget, _⟩ := worker_valid PF lines hvalid []
    refine ⟨m, hrun, ?_⟩
    intro k
    rw [hget k]
    simp only [DetailsMap.get]
    rfl

/-- The lines `Paris;10.5`, `Paris;20.0` are valid. -/
theorem valid_paris_paris :
    ∀ l ∈ ["Paris;10.5", "Paris;20.0"], ValidLine decimalParseFloat l := by
  intro l hl
  simp only [List.mem_cons, List.mem_singleton, List.not_mem_nil, or_false] at hl
  rcases hl with rfl | rfl
  · exact ⟨_, parseLine_paris_10_5⟩
  · exact ⟨_, parseLine_paris_20_0⟩

/-- C10 at the input `Paris;10.5`, `Paris;20.0`. -/
theorem present_key_keeps_first_reading_witness :
    (∀ l ∈ ["Paris;10.5", "Paris;20.0"], ValidLine decimalParseFloat l) ∧
      ∃ m, worker decimalParseFloat [] ["Paris;10.5", "Paris;20.0"] = .ok m ∧
        ∀ k, m.get k =
          (firstReading decimalParseFloat ["Paris;10.5", "Paris;20.0"] k).map
            (fun r0 => { min := r0, max := r0, count := 1, total := r0 }) :=
  ⟨valid_paris_paris,
    (present_key_keeps_first_reading decimalParseFloat ["Paris;10.5", "Paris;20.0"]
      valid_paris_paris).2⟩

end Go1brc
